import Mathlib

/-!
Verification of the log dashboard's tailing engine and rendering pipeline
(`src/log_dashboard.py`), as a shallow embedding in Lean.

The embedding follows the Python source:
* `rbPush` models `collections.deque(maxlen=cap).append` (oldest evicted first);
* `is_error_message` models `re.compile(r'error', re.IGNORECASE).search`;
* `splitLines` models text-mode `f.readlines()` starting from a seek position
  (each returned line keeps its terminator; a trailing fragment with no
  terminator is returned as a final line, matching Python);
* `monitorStep` models one successful iteration of `LogMonitor.monitor_file`;
* `monitorIter` additionally models the missing-file and exception branches;
* `handleKey` models the key dispatch of `display_dashboard.main`;
* `sorted_errors` / `total_errors` / `error_summary` model
  `display_dashboard.display_errors`.
-/

namespace LogDashboard


/-- Model of `collections.deque(maxlen := cap)`: appending to a full deque
evicts the oldest element (index 0) first. -/
def rbPush (cap : Nat) (buf : List α) (x : α) : List α :=
  (buf ++ [x]).drop (buf.length + 1 - cap)

/-- A whole sequence of `append` calls, oldest first. -/
def rbPushAll (cap : Nat) (buf : List α) (xs : List α) : List α :=
  xs.foldl (rbPush cap) buf

/-- `self.buffer_size = 1000` in `LogMonitor.__init__`. -/
def buffer_size : Nat := 1000

/-- `self.error_buffer_size = 500` in `LogMonitor.__init__`. -/
def error_buffer_size : Nat := 500

/-- The last `cap` elements of a list (all of it when shorter). -/
def lastN (cap : Nat) (l : List α) : List α :=
  l.drop (l.length - cap)

/-- Does `s` start with `p`? (helper for the substring-search model). -/
def startsWithChars : List Char → List Char → Bool
  | [], _ => true
  | _ :: _, [] => false
  | p :: ps, c :: cs => p == c && startsWithChars ps cs

/-- Does `s` contain `p` as a contiguous run? Model of `re.search` with a
plain-text pattern: try a match at every start position. -/
def hasSub (p : List Char) : List Char → Bool
  | [] => startsWithChars p []
  | c :: cs => startsWithChars p (c :: cs) || hasSub p cs

/-- The pattern of `self.error_pattern = re.compile(r'error', re.IGNORECASE)`. -/
def error_pattern : List Char := "error".toList

/-- `re.IGNORECASE` search for the all-lowercase pattern `error`: search the
lowercased line. -/
def is_error_chars (line : List Char) : Bool :=
  hasSub error_pattern (line.map Char.toLower)

/-- Model of `LogMonitor.is_error_message`. -/
def is_error_message (line : String) : Bool :=
  is_error_chars line.toList

/-- The whitespace characters removed by Python `str.strip()`. -/
def isPySpace (c : Char) : Bool :=
  c = ' ' || c = '\t' || c = '\n' || c = '\r' || c = '\x0b' || c = '\x0c'

/-- Model of Python `str.strip()`: drop whitespace from both ends. -/
def stripChars (s : List Char) : List Char :=
  ((s.dropWhile isPySpace).reverse.dropWhile isPySpace).reverse

/-- Accumulator-based splitting of a character stream into lines, as
text-mode `f.readlines()` does: every line keeps its terminator, and a
trailing fragment without a terminator is returned as a final line. -/
def splitLinesAux : List Char → List Char → List (List Char)
  | acc, [] => if acc.isEmpty then [] else [acc.reverse]
  | acc, c :: cs =>
    if c = '\n' then (c :: acc).reverse :: splitLinesAux [] cs
    else splitLinesAux (c :: acc) cs

/-- Model of `f.readlines()` applied to the bytes from the seek position on. -/
def splitLines (cs : List Char) : List (List Char) :=
  splitLinesAux [] cs

/-- The per-source mutable state of `LogMonitor`: `file_positions[name]`,
`log_buffers[name]` and `error_buffers[name]`. -/
structure SourceState where
  offset : Nat
  log_buffer : List String
  error_buffer : List String
deriving DecidableEq

/-- `f"[{timestamp}] {line.strip()}"`. -/
def formatLine (t : String) (line : List Char) : String :=
  "[" ++ t ++ "] " ++ String.mk (stripChars line)

/-- `f"[{timestamp}] {name}: {line.strip()}"`. -/
def errorEntry (t name : String) (line : List Char) : String :=
  "[" ++ t ++ "] " ++ name ++ ": " ++ String.mk (stripChars line)

/-- The `for line in new_lines` loop of `LogMonitor.monitor_file`: each line
is stamped (`ts i` is the wall-clock string read for the `i`-th line),
formatted and appended to the log buffer, and also appended to the error
buffer when `is_error_message` matches the raw line. -/
def processLines (name : String) (ts : Nat → String) :
    List (List Char) → Nat → SourceState → SourceState
  | [], _, st => st
  | line :: rest, i, st =>
    let st1 : SourceState := { st with log_buffer := rbPush buffer_size st.log_buffer (formatLine (ts i) line) }
    let st2 : SourceState := if is_error_chars line then { st1 with error_buffer := rbPush error_buffer_size st1.error_buffer (errorEntry (ts i) name line) } else st1
    processLines name ts rest (i + 1) st2

/-- One successful body of the `while` loop in `LogMonitor.monitor_file`
(file exists, open and read succeed): seek to the recorded offset, read all
remaining lines, and only when the read produced at least one line process
them and record `f.tell()` (the end of file) as the new offset. -/
def monitorStep (name : String) (ts : Nat → String) (content : List Char)
    (st : SourceState) : SourceState :=
  let new_lines := splitLines (content.drop st.offset)
  if new_lines.isEmpty then st
  else { processLines name ts new_lines 0 st with offset := content.length }

/-- Formatted log entries for a list of raw lines, starting at stamp `i`. -/
def formatLines (ts : Nat → String) : Nat → List (List Char) → List String
  | _, [] => []
  | i, line :: rest => formatLine (ts i) line :: formatLines ts (i + 1) rest

/-- Error entries produced for a list of raw lines, starting at stamp `i`:
one entry per line matched by the classifier. -/
def errorLines (name : String) (ts : Nat → String) : Nat → List (List Char) → List String
  | _, [] => []
  | i, line :: rest =>
    if is_error_chars line then
      errorEntry (ts i) name line :: errorLines name ts (i + 1) rest
    else errorLines name ts (i + 1) rest

/-- The three cases the body of `monitor_file`'s `while` loop distinguishes
in one iteration: the file does not exist, the open/read succeeds with the
given file content, or an exception escapes the `with` block. -/
inductive PollInput where
  | missing : PollInput
  | content : List Char → PollInput
  | readErr : String → PollInput
deriving DecidableEq

/-- One full iteration of `monitor_file`'s loop for one source: the new
per-source state, and the sleep the iteration performs in tenths of a
second (`time.sleep(1)` on missing file or exception, `time.sleep(0.1)`
after a successful read). The exception branch appends
`f"Error reading file: {e}"` to both buffers. -/
def monitorIter (name : String) (ts : Nat → String) (st : SourceState) :
    PollInput → SourceState × Nat
  | PollInput.missing => (st, 10)
  | PollInput.content cs => (monitorStep name ts cs st, 1)
  | PollInput.readErr cause =>
    let msg := "Error reading file: " ++ cause
    ({ st with log_buffer := rbPush buffer_size st.log_buffer msg, error_buffer := rbPush error_buffer_size st.error_buffer msg }, 10)

/-- The process-wide mutable state of `LogMonitor`: the `running` flag, the
`current_view` toggle (the strings `logs` / `errors`), and each configured
source's state, in configuration (insertion) order. -/
structure DashboardState where
  running : Bool
  current_view : String
  sources : List (String × SourceState)
deriving DecidableEq

/-- A `monitor_file` iteration for source `name` as it acts on the whole
dashboard state: only `file_positions[name]`, `log_buffers[name]` and
`error_buffers[name]` are touched. -/
def monitorIterGlobal (name : String) (ts : Nat → String) (inp : PollInput)
    (d : DashboardState) : DashboardState :=
  { d with sources := d.sources.map (fun p => if p.1 = name then (p.1, (monitorIter name ts p.2 inp).1) else p) }

/-- Model of the key dispatch in `display_dashboard.main`: `getch` returns
an integer (−1 when no key arrived within the tick timeout);
`ord('q') = 113` stops the loop, `ord('e') = 101` toggles the view between
`logs` and `errors`, and anything else falls through. -/
def handleKey (d : DashboardState) (key : Int) : DashboardState :=
  if key = 113 then { d with running := false }
  else if key = 101 then { d with current_view := if d.current_view = "logs" then "errors" else "logs" }
  else d

/-- `display_errors`: all error messages of all sources, concatenated in
configuration order (`self.error_buffers.items()` iterates insertion
order). -/
def all_errors (d : DashboardState) : List String :=
  (d.sources.map (fun p => p.2.error_buffer)).flatten

/-- Stable insertion into a descending-sorted list: `x` passes every
strictly greater element and lands before the first element that is `≤ x`
(by Python's code-point lexicographic string order). -/
def insertDesc (x : String) : List String → List String
  | [] => [x]
  | y :: ys => if x.toList < y.toList then y :: insertDesc x ys else x :: y :: ys

/-- Model of `all_errors.sort(reverse=True)`: a stable descending sort by
code-point lexicographic string order. -/
def sortDesc : List String → List String
  | [] => []
  | a :: l => insertDesc a (sortDesc l)

/-- The sorted sequence `display_errors` renders top-down. -/
def sorted_errors (d : DashboardState) : List String :=
  sortDesc (all_errors d)

/-- `total_errors = sum(len(errors) for errors in self.error_buffers.values())`. -/
def total_errors (d : DashboardState) : Nat :=
  (d.sources.map (fun p => p.2.error_buffer.length)).sum

/-- `f" Error Summary (Total: {total_errors}) "`, the panel title. -/
def error_summary (d : DashboardState) : String :=
  " Error Summary (Total: " ++ toString (total_errors d) ++ ") "

/-- The literal timestamp text of a rendered entry `[HH:MM:SS] ...`:
characters 1 through 8. -/
def tsKey (s : String) : List Char :=
  (s.toList.drop 1).take 8

theorem rbPush_lastN (cap : Nat) (l : List α) (x : α) :
    rbPush cap (lastN cap l) x = lastN cap (l ++ [x]) := by
  unfold rbPush lastN
  rcases le_or_lt l.length cap with h | h
  · have h0 : l.length - cap = 0 := by omega
    simp [h0]
  · have hlen : (l.drop (l.length - cap)).length = cap := by
      rw [List.length_drop]; omega
    rw [hlen]
    have h2 : cap + 1 - cap = 1 := by omega
    rw [h2]
    rcases Nat.eq_zero_or_pos cap with hc | hc
    · subst hc
      simp [List.drop_length]
    · have hd1 : (1 : Nat) - cap = 0 := by omega
      have hd2 : l.length + 1 - cap - l.length = 0 := by omega
      have hd3 : (l ++ [x]).length - cap = l.length + 1 - cap := by simp
      have hd4 : l.length - cap + 1 = l.length + 1 - cap := by omega
      rw [hd3, List.drop_append_eq_append_drop, List.drop_append_eq_append_drop,
        hlen, hd1, hd2, List.drop_drop, hd4]

theorem rbPushAll_lastN (cap : Nat) (xs : List α) :
    ∀ l : List α, rbPushAll cap (lastN cap l) xs = lastN cap (l ++ xs) := by
  induction xs with
  | nil => intro l; simp [rbPushAll]
  | cons x xs ih =>
    intro l
    have step : rbPushAll cap (lastN cap l) (x :: xs)
        = rbPushAll cap (rbPush cap (lastN cap l) x) xs := rfl
    rw [step, rbPush_lastN, ih (l ++ [x])]
    simp

theorem rbPushAll_nil_start (cap : Nat) (xs : List α) :
    rbPushAll cap ([] : List α) xs = xs.drop (xs.length - cap) := by
  have h := rbPushAll_lastN cap xs ([] : List α)
  simpa [lastN] using h

/-- Claim C1: a ring buffer (model of `deque(maxlen=cap)`; the code fixes
`buffer_size = 1000` for log entries and `error_buffer_size = 500` for
error entries) never holds more than `cap` items under any sequence of
pushes from empty, and after more than `cap` pushes its content is exactly
the last `cap` pushed items in push order (oldest evicted first). -/
theorem ring_buffer_bounded_and_fifo (cap : Nat) (xs : List String) :
    buffer_size = 1000 ∧ error_buffer_size = 500 ∧
    (rbPushAll cap ([] : List String) xs).length ≤ cap ∧
    (cap < xs.length →
      rbPushAll cap ([] : List String) xs = xs.drop (xs.length - cap)) := by
  refine ⟨rfl, rfl, ?_, fun _ => rbPushAll_nil_start cap xs⟩
  rw [rbPushAll_nil_start]
  simp [List.length_drop]
  omega

/-- Concrete instance of C1: capacity 2, three pushes keep the last two. -/
theorem ring_buffer_bounded_and_fifo_witness :
    rbPushAll 2 ([] : List String) ["a", "b", "c"] = ["b", "c"] ∧
    (rbPushAll 2 ([] : List String) ["a", "b", "c"]).length ≤ 2 := by
  have h := ring_buffer_bounded_and_fifo 2 ["a", "b", "c"]
  refine ⟨?_, h.2.2.1⟩
  have h2 := h.2.2.2 (by decide)
  simpa using h2

theorem startsWithChars_iff (p : List Char) :
    ∀ s, startsWithChars p s = true ↔ ∃ r, s = p ++ r := by
  induction p with
  | nil => intro s; simp [startsWithChars]
  | cons a ps ih =>
    intro s
    cases s with
    | nil =>
      simp [startsWithChars]
    | cons c cs =>
      simp only [startsWithChars, Bool.and_eq_true, beq_iff_eq]
      constructor
      · rintro ⟨hac, hsw⟩
        obtain ⟨r, hr⟩ := (ih cs).mp hsw
        exact ⟨r, by rw [List.cons_append, hr, hac]⟩
      · rintro ⟨r, hr⟩
        rw [List.cons_append] at hr
        injection hr with h1 h2
        exact ⟨h1.symm, (ih cs).mpr ⟨r, h2⟩⟩

theorem hasSub_iff (p : List Char) :
    ∀ s, hasSub p s = true ↔ ∃ l r, s = l ++ p ++ r := by
  intro s
  induction s with
  | nil =>
    simp only [hasSub, startsWithChars_iff]
    constructor
    · rintro ⟨r, hr⟩
      exact ⟨[], r, by simpa using hr⟩
    · rintro ⟨l, r, hr⟩
      have h1 : l ++ p ++ r = [] := hr.symm
      rw [List.append_eq_nil] at h1
      rw [List.append_eq_nil] at h1
      exact ⟨[], by simp [h1.1.2]⟩
  | cons c cs ih =>
    simp only [hasSub, Bool.or_eq_true, startsWithChars_iff, ih]
    constructor
    · rintro (⟨r, hr⟩ | ⟨l, r, hr⟩)
      · exact ⟨[], r, by simpa using hr⟩
      · exact ⟨c :: l, r, by simp [hr]⟩
    · rintro ⟨l, r, hr⟩
      cases l with
      | nil => exact Or.inl ⟨r, by simpa using hr⟩
      | cons d ds =>
        rw [List.cons_append, List.cons_append] at hr
        injection hr with h1 h2
        exact Or.inr ⟨ds, r, h2⟩

/-- Claim C5: `is_error_message` is a pure case-insensitive substring match
for `error`: it returns true exactly when the lowercased line contains the
pattern, and in particular it accepts `ERROR: x`, `an Error occurred` and
`error`, and rejects `all good`. -/
theorem is_error_case_insensitive_substring (line : String) :
    (is_error_message line = true ↔
      ∃ l r, line.toList.map Char.toLower = l ++ error_pattern ++ r) ∧
    is_error_message "ERROR: x" = true ∧
    is_error_message "an Error occurred" = true ∧
    is_error_message "error" = true ∧
    is_error_message "all good" = false := by
  exact ⟨hasSub_iff error_pattern (line.toList.map Char.toLower),
    by decide, by decide, by decide, by decide⟩

theorem processLines_log_buffer (name : String) (ts : Nat → String) :
    ∀ (ls : List (List Char)) (i : Nat) (st : SourceState),
      (processLines name ts ls i st).log_buffer
        = rbPushAll buffer_size st.log_buffer (formatLines ts i ls) := by
  intro ls
  induction ls with
  | nil => intro i st; rfl
  | cons line rest ih =>
    intro i st
    cases hE : is_error_chars line with
    | false => simp [processLines, hE, ih, rbPushAll, formatLines]
    | true => simp [processLines, hE, ih, rbPushAll, formatLines]

theorem processLines_error_buffer (name : String) (ts : Nat → String) :
    ∀ (ls : List (List Char)) (i : Nat) (st : SourceState),
      (processLines name ts ls i st).error_buffer
        = rbPushAll error_buffer_size st.error_buffer (errorLines name ts i ls) := by
  intro ls
  induction ls with
  | nil => intro i st; rfl
  | cons line rest ih =>
    intro i st
    cases hE : is_error_chars line with
    | false => simp [processLines, errorLines, hE, ih, rbPushAll]
    | true => simp [processLines, errorLines, hE, ih, rbPushAll]

/-- Claim C10: a poll iteration in which the read past the stored offset
yields no lines leaves the source's offset and both buffers unchanged. -/
theorem poll_without_new_lines_is_noop (name : String) (ts : Nat → String)
    (content : List Char) (st : SourceState)
    (h : splitLines (content.drop st.offset) = []) :
    monitorStep name ts content st = st := by
  simp [monitorStep, h]

/-- Concrete instance of C10: offset already at end of file. -/
theorem poll_without_new_lines_is_noop_witness :
    monitorStep "app" (fun _ => "10:00:00") ('a' :: '\n' :: [])
      ⟨2, ["[10:00:00] a"], []⟩ = ⟨2, ["[10:00:00] a"], []⟩ :=
  poll_without_new_lines_is_noop "app" (fun _ => "10:00:00")
    ('a' :: '\n' :: []) ⟨2, ["[10:00:00] a"], []⟩ (by decide)

/-- Claim C2 counterexample: with the recorded offset (5) beyond the file
size (2), the next poll does not reset the offset to 0 and does not re-read
the file; it reads nothing and keeps the stale offset. -/
theorem stale_offset_not_reset_counterexample :
    (monitorStep "app" (fun _ => "10:00:00") ('a' :: '\n' :: [])
      ⟨5, [], []⟩).offset = 5 ∧
    (monitorStep "app" (fun _ => "10:00:00") ('a' :: '\n' :: [])
      ⟨5, [], []⟩).log_buffer = [] := by
  decide

/-- Claim C2 (amended): when a source's recorded offset exceeds the current
file size, the next poll iteration neither errors nor resets the offset:
the read yields nothing and the offset and both buffers are left unchanged. -/
theorem stale_offset_reads_nothing (name : String) (ts : Nat → String)
    (content : List Char) (st : SourceState)
    (h : content.length < st.offset) :
    monitorStep name ts content st = st := by
  have hd : content.drop st.offset = [] := List.drop_eq_nil_of_le (le_of_lt h)
  simp [monitorStep, hd, splitLines, splitLinesAux]

/-- Concrete instance of the amended C2. -/
theorem stale_offset_reads_nothing_witness :
    monitorStep "app" (fun _ => "10:00:00") ('a' :: '\n' :: [])
      ⟨5, [], []⟩ = ⟨5, [], []⟩ :=
  stale_offset_reads_nothing "app" (fun _ => "10:00:00")
    ('a' :: '\n' :: []) ⟨5, [], []⟩ (by decide)

/-- Claim C3 counterexample: for a file `a\nbc` whose trailing line `bc` has
no terminator, one poll consumes the partial line too (it is pushed to the
log buffer) and the offset advances to the end of file (4), not to the end
of the last complete line (2). -/
theorem trailing_line_consumed_counterexample :
    (monitorStep "app" (fun _ => "10:00:00")
      ('a' :: '\n' :: 'b' :: 'c' :: []) ⟨0, [], []⟩).offset = 4 ∧
    (monitorStep "app" (fun _ => "10:00:00")
      ('a' :: '\n' :: 'b' :: 'c' :: []) ⟨0, [], []⟩).log_buffer
      = ["[10:00:00] a", "[10:00:00] bc"] := by
  decide

/-- Claim C3 (amended): a poll iteration consumes everything from the
recorded offset to end of file, a partial trailing line without terminator
included; whenever at least one line is read, the new offset is the file
length (the `f.tell()` position after `readlines`), and the log buffer
receives one formatted entry per line read, in read order. -/
theorem tailer_consumes_to_eof (name : String) (ts : Nat → String)
    (content : List Char) (st : SourceState)
    (h : splitLines (content.drop st.offset) ≠ []) :
    (monitorStep name ts content st).offset = content.length ∧
    (monitorStep name ts content st).log_buffer
      = rbPushAll buffer_size st.log_buffer
          (formatLines ts 0 (splitLines (content.drop st.offset))) := by
  have hne : (splitLines (content.drop st.offset)).isEmpty = false := by
    cases hsl : splitLines (content.drop st.offset) with
    | nil => exact absurd hsl h
    | cons a l => rfl
  constructor
  · simp [monitorStep, hne]
  · simp [monitorStep, hne, processLines_log_buffer]

/-- Concrete instance of the amended C3. -/
theorem tailer_consumes_to_eof_witness :
    (monitorStep "app" (fun _ => "10:00:00")
      ('a' :: '\n' :: 'b' :: 'c' :: []) ⟨0, [], []⟩).offset
      = ('a' :: '\n' :: 'b' :: 'c' :: ([] : List Char)).length ∧
    (monitorStep "app" (fun _ => "10:00:00")
      ('a' :: '\n' :: 'b' :: 'c' :: []) ⟨0, [], []⟩).log_buffer
      = rbPushAll buffer_size ([] : List String)
          (formatLines (fun _ => "10:00:00") 0
            (splitLines (('a' :: '\n' :: 'b' :: 'c' :: ([] : List Char)).drop 0))) :=
  tailer_consumes_to_eof "app" (fun _ => "10:00:00")
    ('a' :: '\n' :: 'b' :: 'c' :: []) ⟨0, [], []⟩ (by decide)

set_option maxRecDepth 8000 in
/-- Claim C4: a poll over a file whose content is the three lines `a`,
`ERROR b`, `c` pushes exactly those three entries, stamped and in order, to
the log buffer, and exactly one entry for `ERROR b`, tagged with the
source's name, to the error buffer. -/
theorem three_lines_one_error (name : String) (ts : Nat → String) :
    (monitorStep name ts "a\nERROR b\nc\n".toList ⟨0, [], []⟩).log_buffer
      = ["[" ++ ts 0 ++ "] " ++ "a",
         "[" ++ ts 1 ++ "] " ++ "ERROR b",
         "[" ++ ts 2 ++ "] " ++ "c"] ∧
    (monitorStep name ts "a\nERROR b\nc\n".toList ⟨0, [], []⟩).error_buffer
      = ["[" ++ ts 1 ++ "] " ++ name ++ ": " ++ "ERROR b"] ∧
    (monitorStep name ts "a\nERROR b\nc\n".toList ⟨0, [], []⟩).offset = 12 := by
  have hsplit : splitLines ['a', '\n', 'E', 'R', 'R', 'O', 'R', ' ', 'b', '\n', 'c', '\n']
      = ['a', '\n'] :: ['E', 'R', 'R', 'O', 'R', ' ', 'b', '\n'] :: ['c', '\n'] :: [] := by
    decide
  have hlen : "a\nERROR b\nc\n".toList.length = 12 := by decide
  have hmon : monitorStep name ts "a\nERROR b\nc\n".toList ⟨0, [], []⟩
      = { processLines name ts
            (['a', '\n'] :: ['E', 'R', 'R', 'O', 'R', ' ', 'b', '\n'] :: ['c', '\n'] :: [])
            0 ⟨0, [], []⟩ with offset := 12 } := by
    simp [monitorStep, hsplit, hlen]
  rw [hmon]
  have hA : is_error_chars ['a', '\n'] = false := by decide
  have hB : is_error_chars ['E', 'R', 'R', 'O', 'R', ' ', 'b', '\n'] = true := by decide
  have hC : is_error_chars ['c', '\n'] = false := by decide
  have hs1 : String.mk (stripChars ['a', '\n']) = "a" := by decide
  have hs2 : String.mk (stripChars ['E', 'R', 'R', 'O', 'R', ' ', 'b', '\n']) = "ERROR b" := by decide
  have hs3 : String.mk (stripChars ['c', '\n']) = "c" := by decide
  refine ⟨?_, ?_, rfl⟩
  · simp only [processLines_log_buffer]
    rw [rbPushAll_nil_start]
    simp [formatLines, formatLine, hs1, hs2, hs3, buffer_size]
  · simp only [processLines_error_buffer]
    rw [rbPushAll_nil_start]
    simp [errorLines, errorEntry, hA, hB, hC, hs2, error_buffer_size]

/-- Claim C6: an I/O error raised while reading an opened source file is
caught inside that source's loop: the synthetic message
`Error reading file: <cause>` is appended to that source's log and error
buffers, the iteration sleeps 1s (10 tenths) and the loop retries, and the
`running` flag, the view and every other source are left untouched. -/
theorem read_error_contained (name cause : String) (ts : Nat → String)
    (st : SourceState) (d : DashboardState) :
    monitorIter name ts st (PollInput.readErr cause)
      = ({ st with
            log_buffer := rbPush buffer_size st.log_buffer ("Error reading file: " ++ cause),
            error_buffer := rbPush error_buffer_size st.error_buffer ("Error reading file: " ++ cause) }, 10) ∧
    (monitorIterGlobal name ts (PollInput.readErr cause) d).running = d.running ∧
    (monitorIterGlobal name ts (PollInput.readErr cause) d).current_view = d.current_view ∧
    ∀ p ∈ d.sources, p.1 ≠ name →
      p ∈ (monitorIterGlobal name ts (PollInput.readErr cause) d).sources := by
  refine ⟨rfl, rfl, rfl, ?_⟩
  intro p hp hne
  have hmem := List.mem_map_of_mem
    (fun q : String × SourceState =>
      if q.1 = name then (q.1, (monitorIter name ts q.2 (PollInput.readErr cause)).1) else q) hp
  simp only [] at hmem
  rw [if_neg hne] at hmem
  exact hmem

/-- Concrete instance of C6: source `app` fails with cause `boom`; the
unrelated source `db` keeps its exact state. -/
theorem read_error_contained_witness :
    monitorIter "app" (fun _ => "10:00:00") ⟨0, [], []⟩ (PollInput.readErr "boom")
      = (⟨0, ["Error reading file: boom"], ["Error reading file: boom"]⟩, 10) ∧
    ("db", (⟨3, ["x"], []⟩ : SourceState)) ∈
      (monitorIterGlobal "app" (fun _ => "10:00:00") (PollInput.readErr "boom")
        ⟨true, "logs", [("app", ⟨0, [], []⟩), ("db", ⟨3, ["x"], []⟩)]⟩).sources := by
  have h := read_error_contained "app" "boom" (fun _ => "10:00:00") ⟨0, [], []⟩
    ⟨true, "logs", [("app", ⟨0, [], []⟩), ("db", ⟨3, ["x"], []⟩)]⟩
  refine ⟨?_, ?_⟩
  · rw [h.1]; decide
  · exact h.2.2.2 ("db", ⟨3, ["x"], []⟩) (by decide) (by decide)

/-- Claim C7: on a renderer tick's key poll, `q` sets `running` to false,
`e` toggles the view between the logs view and the errors view, and any
other key (or no key, `getch` = −1) leaves the dashboard state unchanged. -/
theorem key_dispatch (d : DashboardState) (key : Int) :
    (key = 113 → handleKey d key = { d with running := false }) ∧
    (key = 101 → handleKey d key = { d with current_view := if d.current_view = "logs" then "errors" else "logs" }) ∧
    (key ≠ 113 → key ≠ 101 → handleKey d key = d) := by
  refine ⟨fun h => ?_, fun h => ?_, fun h1 h2 => ?_⟩
  · simp [handleKey, h]
  · subst h; simp [handleKey]
  · simp [handleKey, h1, h2]

/-- Concrete instance of C7: `q`, `e`, and the no-key poll result. -/
theorem key_dispatch_witness :
    handleKey ⟨true, "logs", []⟩ 113
      = { (⟨true, "logs", []⟩ : DashboardState) with running := false } ∧
    handleKey ⟨true, "logs", []⟩ 101
      = { (⟨true, "logs", []⟩ : DashboardState) with current_view := if (⟨true, "logs", []⟩ : DashboardState).current_view = "logs" then "errors" else "logs" } ∧
    handleKey ⟨true, "logs", []⟩ (-1) = ⟨true, "logs", []⟩ := by
  have h1 := key_dispatch ⟨true, "logs", []⟩ 113
  have h2 := key_dispatch ⟨true, "logs", []⟩ 101
  have h3 := key_dispatch ⟨true, "logs", []⟩ (-1)
  exact ⟨h1.1 rfl, h2.2.1 rfl, h3.2.2 (by decide) (by decide)⟩

theorem insertDesc_perm (x : String) : ∀ l, (insertDesc x l).Perm (x :: l) := by
  intro l
  induction l with
  | nil => exact List.Perm.refl _
  | cons y ys ih =>
    by_cases h : x.toList < y.toList
    · simp only [insertDesc, if_pos h]
      exact (ih.cons y).trans (List.Perm.swap x y ys)
    · simp only [insertDesc, if_neg h]
      exact List.Perm.refl _

theorem sortDesc_perm : ∀ l, (sortDesc l).Perm l := by
  intro l
  induction l with
  | nil => exact List.Perm.refl _
  | cons a l ih => exact (insertDesc_perm a (sortDesc l)).trans (ih.cons a)

theorem insertDesc_sorted (x : String) :
    ∀ l, List.Pairwise (fun a b => b.toList ≤ a.toList) l →
      List.Pairwise (fun a b => b.toList ≤ a.toList) (insertDesc x l) := by
  intro l
  induction l with
  | nil => intro _; simp [insertDesc]
  | cons y ys ih =>
    intro hl
    rw [List.pairwise_cons] at hl
    obtain ⟨hy, hys⟩ := hl
    by_cases h : x.toList < y.toList
    · simp only [insertDesc, if_pos h]
      rw [List.pairwise_cons]
      refine ⟨?_, ih hys⟩
      intro z hz
      rcases List.mem_cons.mp ((insertDesc_perm x ys).mem_iff.mp hz) with rfl | hz3
      · exact le_of_lt h
      · exact hy z hz3
    · simp only [insertDesc, if_neg h]
      rw [List.pairwise_cons]
      refine ⟨?_, ?_⟩
      · intro z hz
        rcases List.mem_cons.mp hz with rfl | hz3
        · exact le_of_not_lt h
        · exact le_trans (hy z hz3) (le_of_not_lt h)
      · rw [List.pairwise_cons]
        exact ⟨hy, hys⟩

theorem sortDesc_sorted :
    ∀ l, List.Pairwise (fun a b => b.toList ≤ a.toList) (sortDesc l) := by
  intro l
  induction l with
  | nil => simp [sortDesc]
  | cons a l ih => exact insertDesc_sorted a (sortDesc l) ih

theorem lex_of_take_lex {r : Char → Char → Prop} :
    ∀ (k : Nat) (l m : List Char), List.Lex r (l.take k) (m.take k) →
      List.Lex r l m := by
  intro k
  induction k with
  | zero =>
    intro l m h
    rw [List.take_zero, List.take_zero] at h
    cases h
  | succ k ih =>
    intro l m h
    cases l with
    | nil =>
      cases m with
      | nil => rw [List.take_nil] at h; cases h
      | cons b bs => exact List.Lex.nil
    | cons a as =>
      cases m with
      | nil => rw [List.take_nil] at h; cases h
      | cons b bs =>
        rw [List.take_succ_cons, List.take_succ_cons] at h
        cases h with
        | cons h2 => exact List.Lex.cons (ih as bs h2)
        | rel h2 => exact List.Lex.rel h2

theorem take_le_of_le (k : Nat) (l m : List Char) (h : l ≤ m) :
    l.take k ≤ m.take k := by
  by_contra hc
  rw [not_le] at hc
  have hx : List.Lex (fun a b : Char => a < b) (m.take k) (l.take k) := hc
  have hml : List.Lex (fun a b : Char => a < b) m l := lex_of_take_lex k m l hx
  have hlt : m < l := hml
  exact absurd hlt (not_lt.mpr h)

theorem tail_le_of_cons_le {c : Char} {l m : List Char}
    (h : (c :: l) ≤ (c :: m)) : l ≤ m := by
  by_contra hc
  rw [not_le] at hc
  have hx : List.Lex (fun a b : Char => a < b) m l := hc
  have hcons : (c :: m) < (c :: l) := List.Lex.cons hx
  exact absurd hcons (not_lt.mpr h)

/-- Claim C8: with the view on Errors, the renderer concatenates every
source's error buffer into one sequence and sorts it descending; on the
rendered form `[HH:MM:SS] source: text` (entries starting with `[`) the
result is ordered descending by the literal timestamp string, and the
panel title carries the total error count, which equals the sum of the
lengths of all sources' error buffers. -/
theorem error_view_sorted_and_counted (d : DashboardState)
    (h : ∀ e ∈ all_errors d, e.toList.head? = some '[') :
    (sorted_errors d).Perm (all_errors d) ∧
    List.Pairwise (fun a b => tsKey b ≤ tsKey a) (sorted_errors d) ∧
    total_errors d = (all_errors d).length ∧
    error_summary d
      = " Error Summary (Total: " ++ toString ((all_errors d).length) ++ ") " := by
  have hperm : (sorted_errors d).Perm (all_errors d) := sortDesc_perm _
  have hcount : total_errors d = (all_errors d).length := by
    simp [total_errors, all_errors, List.map_map]
    rfl
  refine ⟨hperm, ?_, hcount, ?_⟩
  · refine (sortDesc_sorted (all_errors d)).imp_of_mem ?_
    intro a b ha hb hab
    have ha2 := h a (hperm.mem_iff.mp ha)
    have hb2 := h b (hperm.mem_iff.mp hb)
    obtain ⟨ta, hta⟩ : ∃ ta, a.toList = '[' :: ta := by
      cases hA : a.toList with
      | nil => rw [hA] at ha2; simp at ha2
      | cons c cs =>
        rw [hA] at ha2
        simp at ha2
        exact ⟨cs, by rw [ha2]⟩
    obtain ⟨tb, htb⟩ : ∃ tb, b.toList = '[' :: tb := by
      cases hB : b.toList with
      | nil => rw [hB] at hb2; simp at hb2
      | cons c cs =>
        rw [hB] at hb2
        simp at hb2
        exact ⟨cs, by rw [hb2]⟩
    rw [hta, htb] at hab
    have h3 : tb ≤ ta := tail_le_of_cons_le hab
    rw [tsKey, tsKey, hta, htb]
    simp only [List.drop_succ_cons, List.drop_zero]
    exact take_le_of_le 8 tb ta h3
  · rw [error_summary, hcount]

/-- Concrete instance of C8: two sources, one error entry each. -/
theorem error_view_sorted_and_counted_witness :
    (sorted_errors ⟨true, "errors",
        [("app", ⟨0, [], ["[10:00:01] app: ERROR x"]⟩),
         ("db", ⟨0, [], ["[10:00:02] db: ERROR y"]⟩)]⟩).Perm
      (all_errors ⟨true, "errors",
        [("app", ⟨0, [], ["[10:00:01] app: ERROR x"]⟩),
         ("db", ⟨0, [], ["[10:00:02] db: ERROR y"]⟩)]⟩) ∧
    List.Pairwise (fun a b => tsKey b ≤ tsKey a)
      (sorted_errors ⟨true, "errors",
        [("app", ⟨0, [], ["[10:00:01] app: ERROR x"]⟩),
         ("db", ⟨0, [], ["[10:00:02] db: ERROR y"]⟩)]⟩) ∧
    total_errors ⟨true, "errors",
        [("app", ⟨0, [], ["[10:00:01] app: ERROR x"]⟩),
         ("db", ⟨0, [], ["[10:00:02] db: ERROR y"]⟩)]⟩
      = (all_errors ⟨true, "errors",
        [("app", ⟨0, [], ["[10:00:01] app: ERROR x"]⟩),
         ("db", ⟨0, [], ["[10:00:02] db: ERROR y"]⟩)]⟩).length := by
  have h := error_view_sorted_and_counted ⟨true, "errors",
    [("app", ⟨0, [], ["[10:00:01] app: ERROR x"]⟩),
     ("db", ⟨0, [], ["[10:00:02] db: ERROR y"]⟩)]⟩ (by decide)
  exact ⟨h.1, h.2.1, h.2.2.1⟩

end LogDashboard
